import Mathlib

/-!
Shallow embedding of `ppcls/engine/trainer_logo.py` (PaddleClas, LOGO
retrieval trainer).

The file has two parts.

* `Trainer.train` (source lines 104-215): the epoch/batch training loop.
  The deep-learning framework calls (model forward, autograd, optimizer)
  are opaque; the loop's observable actions (backward, optimizer step,
  gradient clearing, learning-rate step, checkpoint saves, log lines,
  eval calls) are recorded in an event trace, and the values returned by
  `self.eval` are abstracted as input functions `evalStart` (the call
  `self.eval(0)` at the top of each epoch) and `evalMid` (the call
  guarded by `eval_during_train`).  Metric values are modelled as exact
  rationals.

* `Trainer.eval` (source lines 220-324): the retrieval evaluation.
  Feature tensors are lists of real-valued rows; the pipeline
  (row-wise L2 normalisation, concatenation over batches, query split
  into `num_split` sections, similarity matmul, descending argsort,
  gather of gallery labels, mean of equality indicators) is embedded
  exactly.
-/

namespace TrainerLogo

/-- Modelled from the spec: `AverageMeter` is imported from
`ppcls.utils.misc`, which is not among the repository's files.  Per the
spec's "metric averaging" and the call sites `output_info[key].update(value,
batch_size)` / `output_info[key].avg`, it keeps a batch-size-weighted
running average: `update val n` adds `val * n` to a running sum and `n` to
a running count, and `avg` is the sum divided by the count. -/
structure AverageMeter where
  sum : ℚ
  count : ℕ
deriving DecidableEq

def AverageMeter.update (m : AverageMeter) (val : ℚ) (n : ℕ) : AverageMeter :=
  ⟨m.sum + val * n, m.count + n⟩

def AverageMeter.avg (m : AverageMeter) : ℚ :=
  m.sum / (m.count : ℚ)

/-- One training batch, as the loop observes it: its batch size
(`batch[0].shape[0]`), the dictionary returned by `loss_func` and the one
returned by `metric_func` (association lists keyed by metric name). -/
structure Batch where
  batchSize : ℕ
  lossDict : List (String × ℚ)
  metricDict : List (String × ℚ)
deriving DecidableEq

/-- The `best_metric` dictionary: `{"metric": ..., "epoch": ...}`. -/
structure BestMetric where
  metric : ℚ
  epoch : ℕ
deriving DecidableEq

/-- The fields of `config["Global"]` that `Trainer.train` reads.
`evalDuringTrain` is an integer used both as a truth value and as an epoch
period (`if eval_during_train and epoch_id % eval_during_train == 0`).
`checkpoints` models `Global.checkpoints` together with `init_model`'s
return: `none` when no checkpoint path is configured, `some r` when one
is, with `r` the `metric_info` that `init_model` returns (`none` when it
returns `None`). `hasMetricFunc` is whether `metric_func` is not `None`. -/
structure GlobalConfig where
  epochs : ℕ
  printBatchStep : ℕ
  saveInterval : ℕ
  evalDuringTrain : ℕ
  hasMetricFunc : Bool
  checkpoints : Option (Option BestMetric)
deriving DecidableEq

/-- The observable actions of `Trainer.train`, in program order. -/
inductive Event where
  | evalCall (epochArg : ℕ)
  | backward
  | optStep
  | clearGrad
  | lrStep
  | logIter (epochId iterId : ℕ) (avgs : List (String × ℚ))
  | logEpochAvg (epochId : ℕ) (avgs : List (String × ℚ))
  | initModel
  | saveModel (pfx : String) (metric : ℚ) (epochId : ℕ)
deriving DecidableEq

/-- The dictionary `output_info`: an insertion-ordered dictionary from metric names to
meters, as a Python `dict` is. -/
abbrev Info := List (String × AverageMeter)

def getMeter : Info → String → Option AverageMeter
  | [], _ => none
  | (k, m) :: rest, key => if k = key then some m else getMeter rest key

def setMeter : Info → String → AverageMeter → Info
  | [], key, m => [(key, m)]
  | (k, m0) :: rest, key, m =>
    if k = key then (k, m) :: rest else (k, m0) :: setMeter rest key m

/-- The update `if not key in output_info: output_info[key] = AverageMeter(...)` and
then `output_info[key].update(val, n)`: a fresh meter starts at sum 0,
count 0. -/
def updOne (info : Info) (key : String) (val : ℚ) (n : ℕ) : Info :=
  setMeter info key (((getMeter info key).getD ⟨0, 0⟩).update val n)

/-- The loop `for key in d: ... output_info[key].update(d[key], batch_size)`. -/
def updDict (info : Info) (kvs : List (String × ℚ)) (n : ℕ) : Info :=
  kvs.foldl (fun acc kv => updOne acc kv.1 kv.2 n) info

/-- The pairs `(key, output_info[key].avg)` in dictionary order, as the
log lines format them. -/
def avgsOf (info : Info) : List (String × ℚ) :=
  info.map (fun km => (km.1, km.2.avg))

/-- What one batch does to `output_info` (source lines 152-165): the loss
dictionary's keys are folded in, then, when `metric_func` is not `None`,
the metric dictionary's keys. -/
def stepInfo (cfg : GlobalConfig) (info : Info) (b : Batch) : Info :=
  let info1 := updDict info b.lossDict b.batchSize
  if cfg.hasMetricFunc then updDict info1 b.metricDict b.batchSize else info1

structure BatchOut where
  info : Info
  globalStep : ℕ
  events : List Event
deriving DecidableEq

/-- The inner loop `for iter_id, batch in enumerate(train_dataloader())`
(source lines 144-181): update the meters, log when
`iter_id % print_batch_step == 0`, then
`loss_dict["loss"].backward(); optimizer.step(); optimizer.clear_grad();
lr_sch.step()`. -/
def runBatches (cfg : GlobalConfig) (epochId : ℕ) :
    List Batch → Info → ℕ → ℕ → BatchOut
  | [], info, gstep, _ => ⟨info, gstep, []⟩
  | b :: bs, info, gstep, iterId =>
    let info2 := stepInfo cfg info b
    let logEvs :=
      if iterId % cfg.printBatchStep == 0 then
        [Event.logIter epochId iterId (avgsOf info2)]
      else []
    let rest := runBatches cfg epochId bs info2 (gstep + 1) (iterId + 1)
    ⟨rest.info, rest.globalStep,
      logEvs ++ [Event.backward, Event.optStep, Event.clearGrad, Event.lrStep]
        ++ rest.events⟩

structure EpochOut where
  best : BestMetric
  info : Info
  globalStep : ℕ
  events : List Event
deriving DecidableEq

/-- The guard `if eval_during_train and epoch_id % eval_during_train == 0`
(source lines 192-194): a Python int is truthy when nonzero. -/
def evalTrig (cfg : GlobalConfig) (epochId : ℕ) : Bool :=
  cfg.evalDuringTrain != 0 && epochId % cfg.evalDuringTrain == 0

/-- The body of `for epoch_id in range(...)` (source lines 141-215):
`acc = self.eval(0)` immediately overwritten by `acc = 0.0`, the batch
loop, the end-of-epoch average log, `output_info.clear()`, the guarded
evaluation with the `best_model` save, and the periodic
`ppcls_epoch_{epoch_id}` save. -/
def runEpoch (cfg : GlobalConfig) (batches : List Batch)
    (evalStart evalMid : ℕ → ℚ) (best : BestMetric) (info : Info)
    (gstep epochId : ℕ) : EpochOut :=
  let _acc0 := evalStart epochId
  let acc : ℚ := 0
  let bo := runBatches cfg epochId batches info gstep 0
  let headEvs :=
    Event.evalCall 0 :: bo.events ++ [Event.logEpochAvg epochId (avgsOf bo.info)]
  let fin := fun (b : BestMetric) (a : ℚ) (evs : List Event) =>
    EpochOut.mk b [] bo.globalStep
      (evs ++
        if epochId % cfg.saveInterval == 0 then
          [Event.saveModel ("ppcls_epoch_" ++ toString epochId) a epochId]
        else [])
  if evalTrig cfg epochId then
    let acc2 := evalMid epochId
    if acc2 > best.metric then
      fin ⟨acc2, epochId⟩ acc2
        (headEvs ++ [Event.evalCall epochId,
          Event.saveModel "best_model" acc2 epochId])
    else
      fin best acc2 (headEvs ++ [Event.evalCall epochId])
  else
    fin best acc headEvs

structure TrainResult where
  best : BestMetric
  info : Info
  globalStep : ℕ
  trace : List Event
deriving DecidableEq

/-- The dictionary `best_metric` after the checkpoint block (source lines 123-137):
the default `{"metric": 0.0, "epoch": 0}`, replaced by the loaded
`metric_info` when a checkpoint is configured and `init_model` returns
one (`best_metric.update(metric_info)` overwrites both keys). -/
def resumeBest (cfg : GlobalConfig) : BestMetric :=
  match cfg.checkpoints with
  | none => ⟨0, 0⟩
  | some none => ⟨0, 0⟩
  | some (some mi) => mi

/-- The call `init_model(...)` happens exactly when a checkpoint path is
configured. -/
def initTrace (cfg : GlobalConfig) : List Event :=
  match cfg.checkpoints with
  | none => []
  | some _ => [Event.initModel]

/-- The epoch range `range(best_metric["epoch"] + 1, epochs + 1)` (source lines 139-140). -/
def trainEpochIds (cfg : GlobalConfig) : List ℕ :=
  List.range' ((resumeBest cfg).epoch + 1) (cfg.epochs - (resumeBest cfg).epoch)

def trainStep (cfg : GlobalConfig) (batches : List Batch)
    (evalStart evalMid : ℕ → ℚ) (r : TrainResult) (epochId : ℕ) : TrainResult :=
  let eo := runEpoch cfg batches evalStart evalMid r.best r.info r.globalStep epochId
  ⟨eo.best, eo.info, eo.globalStep, r.trace ++ eo.events⟩

/-- The method `Trainer.train` (source lines 104-215), with the framework objects
opaque: the epoch loop folded over `trainEpochIds`. -/
def Trainer.train (cfg : GlobalConfig) (batches : List Batch)
    (evalStart evalMid : ℕ → ℚ) : TrainResult :=
  (trainEpochIds cfg).foldl (trainStep cfg batches evalStart evalMid)
    ⟨resumeBest cfg, [], 0, initTrace cfg⟩

/-- The four per-batch parameter-update actions of source lines 178-181. -/
def Event.isParamOp : Event → Bool
  | .backward => true
  | .optStep => true
  | .clearGrad => true
  | .lrStep => true
  | _ => false

/-- The value the local `acc` holds when the periodic save of source
lines 208-215 runs: the recall of this epoch's `eval_during_train`
evaluation when that evaluation ran, and the `acc = 0.0` of source
line 142 otherwise. -/
def epochAcc (cfg : GlobalConfig) (evalMid : ℕ → ℚ) (epochId : ℕ) : ℚ :=
  if evalTrig cfg epochId then evalMid epochId else 0

/-- The meter `output_info[k]`, a fresh zero meter when the key is absent. -/
def meterOf (info : Info) (k : String) : AverageMeter :=
  (getMeter info k).getD ⟨0, 0⟩

/-- The metric dictionary a batch feeds into `output_info`: the loss
dictionary followed, when `metric_func` is not `None`, by the metric
dictionary. -/
def effDict (cfg : GlobalConfig) (b : Batch) : List (String × ℚ) :=
  b.lossDict ++ if cfg.hasMetricFunc then b.metricDict else []

/-- The contribution of one dictionary to key `k`'s weighted sum: every
pair keyed `k` contributes its value times the batch size. -/
def pairsSum (k : String) (kvs : List (String × ℚ)) (n : ℕ) : ℚ :=
  ((kvs.filter (fun kv => kv.1 = k)).map (fun kv => kv.2 * (n : ℚ))).sum

/-- The contribution of one dictionary to key `k`'s weight total. -/
def pairsCount (k : String) (kvs : List (String × ℚ)) (n : ℕ) : ℕ :=
  (kvs.filter (fun kv => kv.1 = k)).length * n

/-- Key `k`'s batch-size-weighted value sum over a run of batches, as the
claim words it: each batch's value for `k` weighted by its batch size. -/
def keyWSum (cfg : GlobalConfig) (k : String) (bs : List Batch) : ℚ :=
  (bs.map (fun b => pairsSum k (effDict cfg b) b.batchSize)).sum

/-- The total weight (sum of batch sizes of the batches carrying key `k`). -/
def keyWCount (cfg : GlobalConfig) (k : String) (bs : List Batch) : ℕ :=
  (bs.map (fun b => pairsCount k (effDict cfg b) b.batchSize)).sum

/-- The state of `output_info` after the prefix `p` of the epoch's batches, starting
from the empty dictionary. -/
def infoAfter (cfg : GlobalConfig) (p : List Batch) : Info :=
  p.foldl (stepInfo cfg) []

/-! ### The retrieval evaluation `Trainer.eval` (source lines 220-324)

A feature batch is a list of rows (`List ℝ`) with a parallel list of
integer labels.  Paddle ops are embedded over exact reals. -/

noncomputable section

/-- The norm `paddle.sqrt(paddle.sum(paddle.square(x), axis=1, keepdim=True))`:
the row-wise L2 norm (source lines 246-247 and 277-278). -/
def feasNorm (v : List ℝ) : ℝ :=
  Real.sqrt ((v.map (fun x => x ^ 2)).sum)

/-- The quotient `paddle.divide(batch_feas, feas_norm)`: each coordinate divided by the
row's L2 norm. -/
def normalizeRow (v : List ℝ) : List ℝ :=
  v.map (fun x => x / feasNorm v)

/-- The dot product: one entry of
`paddle.matmul(block_fea, all_feas, transpose_y=True)`. -/
def dot (a b : List ℝ) : ℝ :=
  (List.zipWith (fun x y => x * y) a b).sum

/-- The index `paddle.argsort(row, descending=True)[0]`: the index of the first
occurrence of the row's maximum (ties resolved by a stable descending
sort's first position). -/
def argmaxIdx : List ℝ → ℕ
  | [] => 0
  | x :: xs =>
    let j := argmaxIdx xs
    if xs.getD j x ≤ x then 0 else j + 1

/-- One query's chosen label: `paddle.gather(all_labs, indicies[:, 0])`
where `indicies = argsort(matmul(block_fea, all_feas^T), descending)`. -/
def chosenLabel (allFeas : List (List ℝ)) (allLabs : List ℤ) (q : List ℝ) : ℤ :=
  allLabs.getD (argmaxIdx (allFeas.map (fun g => dot q g))) 0

/-- The split `paddle.split(x, num_or_sections=n)` along axis 0: `n` consecutive
sections each of `x.length / n` rows (`secLen` is passed that quotient). -/
def splitSections {α : Type} : ℕ → ℕ → List α → List (List α)
  | 0, _, _ => []
  | n + 1, secLen, xs => xs.take secLen :: splitSections n secLen (xs.drop secLen)

/-- The gallery- and query-building loops (source lines 239-299): each
batch's features are L2-normalised row-wise, then the batches are
concatenated. -/
def buildFeas (batches : List (List (List ℝ) × List ℤ)) : List (List ℝ) :=
  (batches.map (fun b => b.1.map normalizeRow)).flatten

/-- The concatenated labels of those batches. -/
def buildLabs (batches : List (List (List ℝ) × List ℤ)) : List ℤ :=
  (batches.map Prod.snd).flatten

/-- The raw (unnormalised) concatenated features of the batches. -/
def rawFeas (batches : List (List (List ℝ) × List ℤ)) : List (List ℝ) :=
  (batches.map Prod.fst).flatten

/-- The method `Trainer.eval` (source lines 220-324): build the normalised gallery
and query sets, split the query features into `numSplit` sections,
compute each section's nearest-gallery labels, concatenate them, compare
with the query labels and return the mean of the equality indicators
(`recall`). -/
def Trainer.eval (galleryBatches queryBatches : List (List (List ℝ) × List ℤ))
    (numSplit : ℕ) : ℝ :=
  let allFeas := buildFeas galleryBatches
  let allLabs := buildLabs galleryBatches
  let queryFeas := buildFeas queryBatches
  let queryLabs := buildLabs queryBatches
  let feaBlocks := splitSections numSplit (queryFeas.length / numSplit) queryFeas
  let chosen := (feaBlocks.map (fun block => block.map (chosenLabel allFeas allLabs))).flatten
  let result := List.zipWith (fun a b => if a = b then (1 : ℝ) else 0) chosen queryLabs
  result.sum / (result.length : ℝ)

/-- Recall@1 as the spec words it: the fraction of query embeddings whose
nearest gallery embedding by cosine similarity (the dot product of the
L2-normalised vectors; ties to the first position of a descending sort)
carries the same label. -/
def specRecallAt1 (galleryFeas : List (List ℝ)) (galleryLabs : List ℤ)
    (queryFeas : List (List ℝ)) (queryLabs : List ℤ) : ℝ :=
  let nearestLab := fun q =>
    galleryLabs.getD
      (argmaxIdx (galleryFeas.map (fun g => dot (normalizeRow q) (normalizeRow g)))) 0
  (List.zipWith (fun q lab => if nearestLab q = lab then (1 : ℝ) else 0)
      queryFeas queryLabs).sum / (queryFeas.length : ℝ)

end

/-! ### Concrete fixtures used by the witness theorems -/

/-- A concrete configuration: 5 epochs, logging every batch, a checkpoint
every 2 epochs, evaluation every epoch, no metric function, no checkpoint
path. -/
def cfgW4 : GlobalConfig := ⟨5, 1, 2, 1, false, none⟩

/-- A concrete configuration resuming from a checkpoint whose metric info
is `{"metric": 1/2, "epoch": 3}`. -/
def cfgW2 : GlobalConfig := ⟨5, 1, 1, 1, false, some (some ⟨1/2, 3⟩)⟩

/-- A concrete configuration for the averaging witness: logging every
batch, no metric function. -/
def cfgW6 : GlobalConfig := ⟨1, 1, 1, 0, false, none⟩

/-- One batch of size 2 whose loss dictionary holds `loss = 3`. -/
def bsW6 : List Batch := [⟨2, [("loss", 3)], []⟩]

/-- A constant abstract evaluation result. -/
def evalZero : ℕ → ℚ := fun _ => 0

noncomputable section

/-- A concrete gallery: two orthogonal unit rows labelled 5 and 7. -/
def gbW : List (List (List ℝ) × List ℤ) := [([[1, 0], [0, 1]], [5, 7])]

/-- A concrete query batch: one row equal to the first gallery row,
labelled 5. -/
def qbW : List (List (List ℝ) × List ℤ) := [([[1, 0]], [5])]

/-- A concrete query matrix of two rows. -/
def QW : List (List ℝ) := [[1], [2]]

/-- A concrete one-row gallery with its label list. -/
def AW : List (List ℝ) := [[1]]

def LW : List ℤ := [3]

/-- A concrete nonzero feature vector. -/
def vW : List ℝ := [3, 4]

end

/-! ### Helper lemmas about the training loop -/

theorem runBatches_events_filter_param (cfg : GlobalConfig) (e : ℕ) :
    ∀ (bs : List Batch) (info : Info) (g it : ℕ),
    (runBatches cfg e bs info g it).events.filter Event.isParamOp
      = (List.replicate bs.length
          [Event.backward, Event.optStep, Event.clearGrad, Event.lrStep]).flatten := by
  intro bs
  induction bs with
  | nil => intro info g it; simp [runBatches]
  | cons b bs ih =>
    intro info g it
    simp only [runBatches, List.filter_append, ih]
    split <;> simp [Event.isParamOp, List.replicate_succ]

theorem runEpoch_events_filter_param (cfg : GlobalConfig) (bs : List Batch)
    (f1 f2 : ℕ → ℚ) (best : BestMetric) (info : Info) (g e : ℕ) :
    (runEpoch cfg bs f1 f2 best info g e).events.filter Event.isParamOp
      = (List.replicate bs.length
          [Event.backward, Event.optStep, Event.clearGrad, Event.lrStep]).flatten := by
  cases ht : evalTrig cfg e with
  | false =>
    simp [runEpoch, ht, List.filter_append, apply_ite (List.filter Event.isParamOp),
      runBatches_events_filter_param, Event.isParamOp]
  | true =>
    by_cases hgt : f2 e > best.metric <;>
      simp [runEpoch, ht, hgt, List.filter_append,
        apply_ite (List.filter Event.isParamOp),
        runBatches_events_filter_param, Event.isParamOp]

theorem trainStep_trace (cfg : GlobalConfig) (bs : List Batch) (f1 f2 : ℕ → ℚ)
    (r : TrainResult) (e : ℕ) :
    (trainStep cfg bs f1 f2 r e).trace
      = r.trace ++ (runEpoch cfg bs f1 f2 r.best r.info r.globalStep e).events := rfl

theorem foldl_trainStep_trace_filter_param (cfg : GlobalConfig) (bs : List Batch)
    (f1 f2 : ℕ → ℚ) :
    ∀ (es : List ℕ) (r : TrainResult),
    ((es.foldl (trainStep cfg bs f1 f2) r).trace.filter Event.isParamOp)
      = r.trace.filter Event.isParamOp
        ++ (List.replicate (es.length * bs.length)
            [Event.backward, Event.optStep, Event.clearGrad, Event.lrStep]).flatten := by
  intro es
  induction es with
  | nil => intro r; simp
  | cons e es ih =>
    intro r
    rw [List.foldl_cons, ih, trainStep_trace, List.filter_append,
      runEpoch_events_filter_param]
    rw [List.length_cons, Nat.succ_mul, Nat.add_comm, List.replicate_add,
      List.flatten_append, List.append_assoc]

theorem mem_foldl_trainStep_trace (cfg : GlobalConfig) (bs : List Batch)
    (f1 f2 : ℕ → ℚ) :
    ∀ (es : List ℕ) (r : TrainResult) (a : Event),
    a ∈ r.trace → a ∈ (es.foldl (trainStep cfg bs f1 f2) r).trace := by
  intro es
  induction es with
  | nil => intro r a h; simpa using h
  | cons e es ih =>
    intro r a h
    rw [List.foldl_cons]
    exact ih _ a (by rw [trainStep_trace]; exact List.mem_append_left _ h)

theorem saveModel_not_mem_runBatches (cfg : GlobalConfig) (e : ℕ) :
    ∀ (bs : List Batch) (info : Info) (g it : ℕ) (p : String) (m : ℚ) (ep : ℕ),
    Event.saveModel p m ep ∉ (runBatches cfg e bs info g it).events := by
  intro bs
  induction bs with
  | nil => intro info g it p m ep; simp [runBatches]
  | cons b bs ih =>
    intro info g it p m ep
    simp only [runBatches]
    split <;> simp [ih]

theorem best_model_ne_ppcls_epoch (e : ℕ) :
    ("best_model" : String) ≠ "ppcls_epoch_" ++ toString e := by
  intro h
  have h2 := congrArg String.length h
  rw [String.length_append] at h2
  have hb : ("best_model" : String).length = 10 := rfl
  have hp : ("ppcls_epoch_" : String).length = 12 := rfl
  omega

theorem ppcls_epoch_ne_best_model (e : ℕ) :
    ("ppcls_epoch_" ++ toString e : String) ≠ "best_model" :=
  (best_model_ne_ppcls_epoch e).symm

theorem runEpoch_best_mono (cfg : GlobalConfig) (bs : List Batch) (f1 f2 : ℕ → ℚ)
    (best : BestMetric) (info : Info) (g e : ℕ) :
    best.metric ≤ (runEpoch cfg bs f1 f2 best info g e).best.metric := by
  cases ht : evalTrig cfg e with
  | false => simp [runEpoch, ht]
  | true =>
    by_cases hgt : f2 e > best.metric
    · simpa [runEpoch, ht, hgt] using le_of_lt hgt
    · simp [runEpoch, ht, hgt]

theorem foldl_trainStep_best_mono (cfg : GlobalConfig) (bs : List Batch)
    (f1 f2 : ℕ → ℚ) :
    ∀ (es : List ℕ) (r : TrainResult),
    r.best.metric ≤ ((es.foldl (trainStep cfg bs f1 f2) r).best.metric) := by
  intro es
  induction es with
  | nil => intro r; simp
  | cons e es ih =>
    intro r
    rw [List.foldl_cons]
    exact le_trans (runEpoch_best_mono cfg bs f1 f2 r.best r.info r.globalStep e)
      (ih (trainStep cfg bs f1 f2 r e))

theorem best_model_save_iff (cfg : GlobalConfig) (bs : List Batch) (f1 f2 : ℕ → ℚ)
    (best : BestMetric) (info : Info) (g e : ℕ) (m : ℚ) (ep : ℕ) :
    Event.saveModel "best_model" m ep ∈ (runEpoch cfg bs f1 f2 best info g e).events
      ↔ (evalTrig cfg e = true ∧ best.metric < f2 e ∧ m = f2 e ∧ ep = e) := by
  cases ht : evalTrig cfg e with
  | false =>
    by_cases hsv : (e % cfg.saveInterval == 0) = true <;>
      simp [runEpoch, ht, hsv, saveModel_not_mem_runBatches,
        best_model_ne_ppcls_epoch e]
  | true =>
    by_cases hgt : f2 e > best.metric <;>
      by_cases hsv : (e % cfg.saveInterval == 0) = true <;>
        simp [runEpoch, ht, hgt, hsv, saveModel_not_mem_runBatches,
          best_model_ne_ppcls_epoch e, and_comm]

theorem runEpoch_best_updated (cfg : GlobalConfig) (bs : List Batch)
    (f1 f2 : ℕ → ℚ) (best : BestMetric) (info : Info) (g e : ℕ)
    (ht : evalTrig cfg e = true) (hgt : best.metric < f2 e) :
    (runEpoch cfg bs f1 f2 best info g e).best = ⟨f2 e, e⟩ := by
  simp [runEpoch, ht, hgt]

theorem periodic_save_iff (cfg : GlobalConfig) (bs : List Batch) (f1 f2 : ℕ → ℚ)
    (best : BestMetric) (info : Info) (g e : ℕ) (m : ℚ) (ep : ℕ) :
    Event.saveModel ("ppcls_epoch_" ++ toString e) m ep
        ∈ (runEpoch cfg bs f1 f2 best info g e).events
      ↔ ((e % cfg.saveInterval == 0) = true ∧ m = epochAcc cfg f2 e ∧ ep = e) := by
  cases ht : evalTrig cfg e with
  | false =>
    by_cases hsv : (e % cfg.saveInterval == 0) = true <;>
      simp [runEpoch, epochAcc, ht, hsv, saveModel_not_mem_runBatches,
        ppcls_epoch_ne_best_model e]
  | true =>
    by_cases hgt : f2 e > best.metric <;>
      by_cases hsv : (e % cfg.saveInterval == 0) = true <;>
        simp [runEpoch, epochAcc, ht, hgt, hsv, saveModel_not_mem_runBatches,
          ppcls_epoch_ne_best_model e]

/-! ### Helper lemmas about the meters -/

theorem getMeter_setMeter (k' : String) :
    ∀ (info : Info) (key : String) (m : AverageMeter),
    getMeter (setMeter info key m) k' = if key = k' then some m else getMeter info k' := by
  intro info
  induction info with
  | nil => intro key m; simp [setMeter, getMeter]
  | cons km rest ih =>
    intro key m
    obtain ⟨k0, m0⟩ := km
    by_cases h1 : k0 = key
    · subst h1
      by_cases h2 : k0 = k' <;> simp [setMeter, getMeter, h2]
    · have h1' : ¬(key = k0) := fun h => h1 h.symm
      by_cases h2 : k0 = k' <;> by_cases h3 : key = k'
      · exact absurd (h2.trans h3.symm) h1
      · have h3' : ¬(k' = key) := fun h => h3 h.symm
        simp [setMeter, getMeter, h1, h1', h2, h3, h3', ih]
      · simp [setMeter, getMeter, h1, h1', h2, h3, ih]
      · simp [setMeter, getMeter, h1, h1', h2, h3, ih]

theorem meterOf_updOne (info : Info) (key k : String) (v : ℚ) (n : ℕ) :
    meterOf (updOne info key v n) k
      = if key = k then (meterOf info k).update v n else meterOf info k := by
  unfold meterOf updOne
  rw [getMeter_setMeter]
  by_cases h : key = k
  · subst h; simp
  · simp [h]

theorem updDict_cons (info : Info) (kv : String × ℚ) (kvs : List (String × ℚ)) (n : ℕ) :
    updDict info (kv :: kvs) n = updDict (updOne info kv.1 kv.2 n) kvs n := rfl

theorem meterOf_updDict :
    ∀ (kvs : List (String × ℚ)) (info : Info) (n : ℕ) (k : String),
    meterOf (updDict info kvs n) k
      = ⟨(meterOf info k).sum + pairsSum k kvs n,
         (meterOf info k).count + pairsCount k kvs n⟩ := by
  intro kvs
  induction kvs with
  | nil =>
    intro info n k
    simp [updDict, pairsSum, pairsCount]
  | cons kv rest ih =>
    intro info n k
    rw [updDict_cons, ih]
    rw [meterOf_updOne]
    by_cases h : kv.1 = k
    · simp [h, AverageMeter.update, pairsSum, pairsCount, List.filter_cons,
        AverageMeter.mk.injEq]
      constructor
      · ring
      · ring
    · simp [h, pairsSum, pairsCount, List.filter_cons]

theorem pairsSum_append (k : String) (a b : List (String × ℚ)) (n : ℕ) :
    pairsSum k (a ++ b) n = pairsSum k a n + pairsSum k b n := by
  simp [pairsSum, List.filter_append]

theorem pairsCount_append (k : String) (a b : List (String × ℚ)) (n : ℕ) :
    pairsCount k (a ++ b) n = pairsCount k a n + pairsCount k b n := by
  simp [pairsCount, List.filter_append, Nat.add_mul]

theorem meterOf_stepInfo (cfg : GlobalConfig) (info : Info) (b : Batch) (k : String) :
    meterOf (stepInfo cfg info b) k
      = ⟨(meterOf info k).sum + pairsSum k (effDict cfg b) b.batchSize,
         (meterOf info k).count + pairsCount k (effDict cfg b) b.batchSize⟩ := by
  unfold stepInfo effDict
  cases h : cfg.hasMetricFunc with
  | false => simp [h, meterOf_updDict]
  | true =>
    simp only [h, if_true]
    rw [meterOf_updDict, meterOf_updDict, pairsSum_append, pairsCount_append]
    simp [add_assoc]

theorem meterOf_foldl_stepInfo (cfg : GlobalConfig) (k : String) :
    ∀ (p : List Batch) (info : Info),
    meterOf (p.foldl (stepInfo cfg) info) k
      = ⟨(meterOf info k).sum + keyWSum cfg k p,
         (meterOf info k).count + keyWCount cfg k p⟩ := by
  intro p
  induction p with
  | nil => intro info; simp [keyWSum, keyWCount]
  | cons b bs ih =>
    intro info
    rw [List.foldl_cons, ih, meterOf_stepInfo]
    simp [keyWSum, keyWCount, add_assoc]

theorem meterOf_infoAfter (cfg : GlobalConfig) (k : String) (p : List Batch) :
    meterOf (infoAfter cfg p) k = ⟨keyWSum cfg k p, keyWCount cfg k p⟩ := by
  unfold infoAfter
  rw [meterOf_foldl_stepInfo]
  simp [meterOf, getMeter]

theorem keys_setMeter :
    ∀ (info : Info) (key : String) (m : AverageMeter),
    (setMeter info key m).map Prod.fst
      = if key ∈ info.map Prod.fst then info.map Prod.fst
        else info.map Prod.fst ++ [key] := by
  intro info
  induction info with
  | nil => intro key m; simp [setMeter]
  | cons km rest ih =>
    intro key m
    obtain ⟨k0, m0⟩ := km
    by_cases h1 : k0 = key
    · subst h1; simp [setMeter]
    · have h1' : key ≠ k0 := fun h => h1 h.symm
      by_cases h2 : key ∈ rest.map Prod.fst <;>
        simp [setMeter, h1, h1', h2, ih]

theorem nodup_keys_updOne (info : Info) (key : String) (v : ℚ) (n : ℕ)
    (h : (info.map Prod.fst).Nodup) :
    ((updOne info key v n).map Prod.fst).Nodup := by
  unfold updOne
  rw [keys_setMeter]
  split
  · exact h
  · next hmem => simp [List.nodup_append, h, hmem]

theorem nodup_keys_updDict :
    ∀ (kvs : List (String × ℚ)) (info : Info) (n : ℕ),
    (info.map Prod.fst).Nodup → ((updDict info kvs n).map Prod.fst).Nodup := by
  intro kvs
  induction kvs with
  | nil => intro info n h; exact h
  | cons kv rest ih =>
    intro info n h
    rw [updDict_cons]
    exact ih _ n (nodup_keys_updOne info kv.1 kv.2 n h)

theorem nodup_keys_stepInfo (cfg : GlobalConfig) (info : Info) (b : Batch)
    (h : (info.map Prod.fst).Nodup) :
    ((stepInfo cfg info b).map Prod.fst).Nodup := by
  unfold stepInfo
  split
  · exact nodup_keys_updDict _ _ _ (nodup_keys_updDict _ _ _ h)
  · exact nodup_keys_updDict _ _ _ h

theorem nodup_keys_foldl_stepInfo (cfg : GlobalConfig) :
    ∀ (p : List Batch) (info : Info),
    (info.map Prod.fst).Nodup → ((p.foldl (stepInfo cfg) info).map Prod.fst).Nodup := by
  intro p
  induction p with
  | nil => intro info h; exact h
  | cons b bs ih =>
    intro info h
    rw [List.foldl_cons]
    exact ih _ (nodup_keys_stepInfo cfg info b h)

theorem nodup_keys_infoAfter (cfg : GlobalConfig) (p : List Batch) :
    ((infoAfter cfg p).map Prod.fst).Nodup :=
  nodup_keys_foldl_stepInfo cfg p [] (by simp)

theorem getMeter_eq_of_mem (k : String) (m : AverageMeter) :
    ∀ (info : Info), (info.map Prod.fst).Nodup → (k, m) ∈ info →
    getMeter info k = some m := by
  intro info
  induction info with
  | nil => intro _ h; simp at h
  | cons km rest ih =>
    intro hnd hm
    obtain ⟨k0, m0⟩ := km
    simp only [List.map_cons, List.nodup_cons] at hnd
    rcases List.mem_cons.mp hm with h | h
    · obtain ⟨hk, hm'⟩ := Prod.mk.injEq .. ▸ h
      subst hk; subst hm'
      simp [getMeter]
    · have hk0 : k0 ≠ k := by
        intro he
        exact hnd.1 (he ▸ (List.mem_map_of_mem Prod.fst h))
      simp [getMeter, hk0, ih hnd.2 h]

theorem avgsOf_mem (info : Info) (k : String) (v : ℚ)
    (hnd : (info.map Prod.fst).Nodup) (hm : (k, v) ∈ avgsOf info) :
    v = (meterOf info k).avg := by
  unfold avgsOf at hm
  obtain ⟨⟨k1, m1⟩, hmem, heq⟩ := List.mem_map.mp hm
  obtain ⟨hk, hv⟩ := Prod.mk.injEq .. ▸ heq
  subst hk
  rw [← hv]
  rw [meterOf, getMeter_eq_of_mem k1 m1 info hnd hmem]
  rfl

theorem infoAfter_concat (cfg : GlobalConfig) (p : List Batch) (b : Batch) :
    infoAfter cfg (p ++ [b]) = stepInfo cfg (infoAfter cfg p) b := by
  simp [infoAfter, List.foldl_append]

theorem runBatches_info (cfg : GlobalConfig) (e : ℕ) :
    ∀ (bs : List Batch) (info : Info) (g it : ℕ),
    (runBatches cfg e bs info g it).info = bs.foldl (stepInfo cfg) info := by
  intro bs
  induction bs with
  | nil => intro info g it; simp [runBatches]
  | cons b bs ih => intro info g it; simp [runBatches, ih]

theorem logEpochAvg_not_mem_runBatches (cfg : GlobalConfig) (e : ℕ) :
    ∀ (bs : List Batch) (info : Info) (g it e' : ℕ) (avs : List (String × ℚ)),
    Event.logEpochAvg e' avs ∉ (runBatches cfg e bs info g it).events := by
  intro bs
  induction bs with
  | nil => intro info g it e' avs; simp [runBatches]
  | cons b bs ih =>
    intro info g it e' avs
    simp only [runBatches]
    split <;> simp [ih]

theorem runBatches_logIter_avgs (cfg : GlobalConfig) (e : ℕ) :
    ∀ (bs p : List Batch) (g : ℕ) (e' it' : ℕ) (avs : List (String × ℚ)),
    Event.logIter e' it' avs ∈ (runBatches cfg e bs (infoAfter cfg p) g p.length).events →
    avs = avgsOf (infoAfter cfg ((p ++ bs).take (it' + 1))) := by
  intro bs
  induction bs with
  | nil => intro p g e' it' avs h; simp [runBatches] at h
  | cons b bs ih =>
    intro p g e' it' avs h
    have hstep : stepInfo cfg (infoAfter cfg p) b = infoAfter cfg (p ++ [b]) :=
      (infoAfter_concat cfg p b).symm
    simp only [runBatches, hstep, List.mem_append, List.mem_cons] at h
    have hassoc : p ++ b :: bs = (p ++ [b]) ++ bs := by simp
    rcases h with (hlog | hrest)
    · rcases hlog with (hin | h4)
      · -- in the optional logIter list
        split at hin
        · simp only [List.mem_singleton] at hin
          obtain ⟨he, hit, hav⟩ := Event.logIter.injEq .. ▸ hin
          subst hit
          rw [hav, hassoc]
          rw [List.take_left' (by simp)]
        · simp at hin
      · rcases h4 with h4 | h4 | h4 | h4 <;> simp_all
    · have hlen : p.length + 1 = (p ++ [b]).length := by simp
      rw [hlen] at hrest
      have := ih (p ++ [b]) (g + 1) e' it' avs hrest
      rw [this, hassoc]

theorem runEpoch_info_clear (cfg : GlobalConfig) (bs : List Batch)
    (f1 f2 : ℕ → ℚ) (best : BestMetric) (info : Info) (g e : ℕ) :
    (runEpoch cfg bs f1 f2 best info g e).info = [] := by
  cases ht : evalTrig cfg e with
  | false => simp [runEpoch, ht]
  | true => by_cases hgt : f2 e > best.metric <;> simp [runEpoch, ht, hgt]

theorem runEpoch_logEpochAvg (cfg : GlobalConfig) (bs : List Batch)
    (f1 f2 : ℕ → ℚ) (best : BestMetric) (g e e' : ℕ) (avs : List (String × ℚ))
    (h : Event.logEpochAvg e' avs ∈ (runEpoch cfg bs f1 f2 best [] g e).events) :
    e' = e ∧ avs = avgsOf (infoAfter cfg bs) := by
  have hinfo : (runBatches cfg e bs [] g 0).info = infoAfter cfg bs := by
    rw [runBatches_info]; rfl
  have hni := logEpochAvg_not_mem_runBatches cfg e bs [] g 0 e' avs
  cases ht : evalTrig cfg e with
  | false =>
    by_cases hsv : (e % cfg.saveInterval == 0) = true <;>
      (simp [runEpoch, ht, hsv, hinfo, hni] at h; exact h)
  | true =>
    by_cases hgt : f2 e > best.metric <;>
      by_cases hsv : (e % cfg.saveInterval == 0) = true <;>
        (simp [runEpoch, ht, hgt, hsv, hinfo, hni] at h; exact h)

/-! ### Claims about the training loop -/

/-- C6: every value logged during an epoch (`logIter`) or at its end
(`logEpochAvg`) is the batch-size-weighted running average of its key
over the batches processed so far in the current epoch, and
`output_info` is cleared at the end of every epoch (so each epoch's
averaging starts from the empty dictionary). -/
theorem logged_values_are_weighted_averages (cfg : GlobalConfig)
    (bs : List Batch) (f1 f2 : ℕ → ℚ) (best : BestMetric) (info0 : Info)
    (g e : ℕ) :
    (∀ (it : ℕ) (avs : List (String × ℚ)) (k : String) (v : ℚ),
        Event.logIter e it avs ∈ (runBatches cfg e bs [] g 0).events →
        (k, v) ∈ avs →
        v = keyWSum cfg k (bs.take (it + 1)) / (keyWCount cfg k (bs.take (it + 1)) : ℚ))
    ∧ (∀ (avs : List (String × ℚ)) (k : String) (v : ℚ),
        Event.logEpochAvg e avs ∈ (runEpoch cfg bs f1 f2 best [] g e).events →
        (k, v) ∈ avs →
        v = keyWSum cfg k bs / (keyWCount cfg k bs : ℚ))
    ∧ (runEpoch cfg bs f1 f2 best info0 g e).info = []
    ∧ (∀ (r : TrainResult) (e' : ℕ), (trainStep cfg bs f1 f2 r e').info = []) := by
  have havg : ∀ (p : List Batch) (k : String) (v : ℚ),
      (k, v) ∈ avgsOf (infoAfter cfg p) →
      v = keyWSum cfg k p / (keyWCount cfg k p : ℚ) := by
    intro p k v hkv
    have h1 := avgsOf_mem (infoAfter cfg p) k v (nodup_keys_infoAfter cfg p) hkv
    rw [h1, meterOf_infoAfter]
    rfl
  refine ⟨?_, ?_, ?_, ?_⟩
  · intro it avs k v hmem hkv
    have h1 := runBatches_logIter_avgs cfg e bs [] g e it avs hmem
    simp only [List.nil_append] at h1
    exact havg (bs.take (it + 1)) k v (h1 ▸ hkv)
  · intro avs k v hmem hkv
    have h1 := (runEpoch_logEpochAvg cfg bs f1 f2 best g e e avs hmem).2
    exact havg bs k v (h1 ▸ hkv)
  · exact runEpoch_info_clear cfg bs f1 f2 best info0 g e
  · intro r e'
    exact runEpoch_info_clear cfg bs f1 f2 r.best r.info r.globalStep e'

/-- C3: across every epoch of `Trainer.train`, `best_metric["metric"]` is
non-decreasing; the `best_model` checkpoint is written exactly when the
guarded evaluation ran that epoch and its recall strictly exceeds the
stored best; and immediately after such a save `best_metric` holds that
recall and that epoch number. -/
theorem best_metric_monotone_and_best_model_save (cfg : GlobalConfig)
    (bs : List Batch) (f1 f2 : ℕ → ℚ) :
    ((resumeBest cfg).metric ≤ (Trainer.train cfg bs f1 f2).best.metric)
    ∧ (∀ (es : List ℕ) (r : TrainResult),
        r.best.metric ≤ ((es.foldl (trainStep cfg bs f1 f2) r).best.metric))
    ∧ (∀ (best : BestMetric) (info : Info) (g e : ℕ) (m : ℚ) (ep : ℕ),
        Event.saveModel "best_model" m ep ∈ (runEpoch cfg bs f1 f2 best info g e).events
          ↔ (evalTrig cfg e = true ∧ best.metric < f2 e ∧ m = f2 e ∧ ep = e))
    ∧ (∀ (best : BestMetric) (info : Info) (g e : ℕ),
        evalTrig cfg e = true → best.metric < f2 e →
          (runEpoch cfg bs f1 f2 best info g e).best = ⟨f2 e, e⟩) := by
  refine ⟨?_, foldl_trainStep_best_mono cfg bs f1 f2,
    best_model_save_iff cfg bs f1 f2,
    fun best info g e ht hgt => runEpoch_best_updated cfg bs f1 f2 best info g e ht hgt⟩
  exact foldl_trainStep_best_mono cfg bs f1 f2 (trainEpochIds cfg) _

/-- C4: a `ppcls_epoch_{epoch_id}` checkpoint recording the epoch's
`acc` and epoch number is written exactly for the epochs divisible by
`Global.save_interval`. -/
theorem periodic_checkpoint_iff_save_interval_dvd (cfg : GlobalConfig)
    (bs : List Batch) (f1 f2 : ℕ → ℚ) (best : BestMetric) (info : Info)
    (g e : ℕ) (hsi : 0 < cfg.saveInterval) :
    ∀ (m : ℚ) (ep : ℕ),
      Event.saveModel ("ppcls_epoch_" ++ toString e) m ep
          ∈ (runEpoch cfg bs f1 f2 best info g e).events
        ↔ (cfg.saveInterval ∣ e ∧ m = epochAcc cfg f2 e ∧ ep = e) := by
  intro m ep
  rw [periodic_save_iff cfg bs f1 f2 best info g e m ep, beq_iff_eq,
    ← Nat.dvd_iff_mod_eq_zero]

/-! ### Helper lemmas about the evaluation -/

theorem flatten_splitSections {α : Type} :
    ∀ (n secLen : ℕ) (xs : List α),
    (splitSections n secLen xs).flatten = xs.take (n * secLen) := by
  intro n
  induction n with
  | zero => intro secLen xs; simp [splitSections]
  | succ n ih =>
    intro secLen xs
    simp only [splitSections, List.flatten_cons, ih]
    rw [Nat.succ_mul, Nat.add_comm, List.take_add]

theorem buildFeas_eq (batches : List (List (List ℝ) × List ℤ)) :
    buildFeas batches = (rawFeas batches).map normalizeRow := by
  unfold buildFeas rawFeas
  rw [List.map_flatten, List.map_map]
  rfl

theorem rawFeas_length_eq_buildLabs (qb : List (List (List ℝ) × List ℤ))
    (h : ∀ b ∈ qb, (Prod.fst b).length = (Prod.snd b).length) :
    (rawFeas qb).length = (buildLabs qb).length := by
  unfold rawFeas buildLabs
  induction qb with
  | nil => rfl
  | cons b rest ih =>
    simp only [List.map_cons, List.flatten_cons, List.length_append]
    rw [h b (by simp), ih (fun x hx => h x (by simp [hx]))]

/-! ### Claims about the evaluation -/

/-- C9: splitting the query matrix into `num_split` even blocks, taking
each block's nearest-gallery labels and concatenating gives the same
label vector, in the same order, as the unsplit computation; hence the
element-wise comparison with the query labels is index-aligned. -/
theorem split_concat_chosen_labels_eq (A : List (List ℝ)) (L : List ℤ)
    (Q : List (List ℝ)) (n : ℕ) (hn : 0 < n) (hdvd : n ∣ Q.length) :
    ((splitSections n (Q.length / n) Q).map
        (fun block => block.map (chosenLabel A L))).flatten
      = Q.map (chosenLabel A L)
    ∧ ∀ (labs : List ℤ),
      List.zipWith (fun a b => if a = b then (1 : ℝ) else 0)
          (((splitSections n (Q.length / n) Q).map
            (fun block => block.map (chosenLabel A L))).flatten) labs
        = List.zipWith (fun a b => if a = b then (1 : ℝ) else 0)
            (Q.map (chosenLabel A L)) labs := by
  have h1 : ((splitSections n (Q.length / n) Q).map
      (fun block => block.map (chosenLabel A L))).flatten
      = Q.map (chosenLabel A L) := by
    rw [← List.map_flatten, flatten_splitSections, Nat.mul_div_cancel' hdvd,
      List.take_length]
  exact ⟨h1, fun labs => by rw [h1]⟩

/-- C10: the division by the L2 norm in `Trainer.eval` is unguarded;
whenever a feature vector has a nonzero coordinate its norm is nonzero
(so the division-by-zero case is unreachable) and the normalised vector
has unit L2 norm. -/
theorem normalize_unit_norm_of_nonzero (v : List ℝ) (hv : ∃ x ∈ v, x ≠ 0) :
    feasNorm v ≠ 0 ∧ feasNorm (normalizeRow v) = 1 := by
  obtain ⟨x, hx, hx0⟩ := hv
  have hnn : ∀ y ∈ v.map (fun z => z ^ 2), 0 ≤ y := by
    intro y hy
    obtain ⟨z, _, rfl⟩ := List.mem_map.mp hy
    positivity
  have hle : x ^ 2 ≤ (v.map (fun z => z ^ 2)).sum :=
    List.single_le_sum hnn _ (List.mem_map_of_mem _ hx)
  have hpos : 0 < (v.map (fun z => z ^ 2)).sum :=
    lt_of_lt_of_le (by positivity) hle
  have hfn : 0 < feasNorm v := Real.sqrt_pos.mpr hpos
  refine ⟨ne_of_gt hfn, ?_⟩
  have hsq : feasNorm v ^ 2 = (v.map (fun z => z ^ 2)).sum := Real.sq_sqrt hpos.le
  have hout : feasNorm (normalizeRow v)
      = Real.sqrt (((normalizeRow v).map (fun z => z ^ 2)).sum) := rfl
  have hcomp : ((fun z => z ^ 2) ∘ fun z => z / feasNorm v)
      = fun z => z ^ 2 * (feasNorm v ^ 2)⁻¹ := by
    funext z
    simp only [Function.comp_apply]
    rw [div_pow, div_eq_mul_inv]
  rw [hout, normalizeRow, List.map_map, hcomp, List.sum_map_mul_right, hsq,
    mul_inv_cancel₀ (ne_of_gt hpos), Real.sqrt_one]

/-- C1: for non-empty gallery and query sets (the query count evenly
divisible by `num_split`), `Trainer.eval` returns exactly the spec's
Recall@1: the fraction of query embeddings whose label equals the label
of the gallery embedding of highest cosine similarity, cosine similarity
being the dot product of the L2-normalised vectors, ties resolved to the
first index of the descending sort, the result the mean of the per-query
equality indicators. -/
theorem trainer_eval_returns_recall_at1
    (gb qb : List (List (List ℝ) × List ℤ)) (numSplit : ℕ)
    (hg : rawFeas gb ≠ []) (hq : rawFeas qb ≠ [])
    (hqb : ∀ b ∈ qb, (Prod.fst b).length = (Prod.snd b).length)
    (hn : 0 < numSplit) (hdvd : numSplit ∣ (rawFeas qb).length) :
    Trainer.eval gb qb numSplit
      = specRecallAt1 (rawFeas gb) (buildLabs gb) (rawFeas qb) (buildLabs qb) := by
  have hlab : (rawFeas qb).length = (buildLabs qb).length :=
    rawFeas_length_eq_buildLabs qb hqb
  simp only [Trainer.eval, specRecallAt1]
  rw [buildFeas_eq gb, buildFeas_eq qb]
  rw [← List.map_flatten, flatten_splitSections]
  have hm : numSplit * (((rawFeas qb).map normalizeRow).length / numSplit)
      = ((rawFeas qb).map normalizeRow).length := by
    rw [List.length_map]
    exact Nat.mul_div_cancel' hdvd
  rw [hm, List.take_length, List.map_map, List.zipWith_map_left]
  have hfun : (fun (q : List ℝ) (lab : ℤ) =>
      if (chosenLabel ((rawFeas gb).map normalizeRow) (buildLabs gb) ∘ normalizeRow) q
          = lab then (1 : ℝ) else 0)
        = (fun (q : List ℝ) (lab : ℤ) =>
          if (buildLabs gb).getD
            (argmaxIdx ((rawFeas gb).map
              (fun g => dot (normalizeRow q) (normalizeRow g)))) 0 = lab
          then (1 : ℝ) else 0) := by
    funext q lab
    simp [chosenLabel, List.map_map, Function.comp_def]
  rw [hfun]
  congr 1
  rw [List.length_zipWith, ← hlab, min_self]

/-- C8: the metric recorded by the periodic checkpoint is the guarded
evaluation's recall when it ran and `0.0` otherwise, and the unconditional
`acc = self.eval(0)` at the top of each epoch is discarded: the whole
result of `Trainer.train` is the same for any two start-of-epoch
evaluation results. -/
theorem start_of_epoch_eval_discarded (cfg : GlobalConfig) (bs : List Batch)
    (f1a f1b f2 : ℕ → ℚ) (best : BestMetric) (info : Info) (g e : ℕ) :
    Trainer.train cfg bs f1a f2 = Trainer.train cfg bs f1b f2
    ∧ runEpoch cfg bs f1a f2 best info g e = runEpoch cfg bs f1b f2 best info g e
    ∧ (∀ (m : ℚ) (ep : ℕ),
        Event.saveModel ("ppcls_epoch_" ++ toString e) m ep
            ∈ (runEpoch cfg bs f1a f2 best info g e).events →
          m = epochAcc cfg f2 e) :=
  ⟨rfl, rfl, fun m ep h =>
    ((periodic_save_iff cfg bs f1a f2 best info g e m ep).mp h).2.1⟩

/-- C2: with a checkpoint configured, `Trainer.train` calls `init_model`,
merges its `metric_info` into the best-metric bookkeeping, and resumes at
epoch `best_metric["epoch"] + 1`, running through `Global.epochs`
inclusive; with none it runs epochs `1 .. Global.epochs`. -/
theorem train_resumes_from_checkpoint (cfg : GlobalConfig) (bs : List Batch)
    (f1 f2 : ℕ → ℚ) (mi : BestMetric) :
    (cfg.checkpoints = some (some mi) →
      resumeBest cfg = mi
      ∧ trainEpochIds cfg = List.range' (mi.epoch + 1) (cfg.epochs - mi.epoch)
      ∧ Event.initModel ∈ (Trainer.train cfg bs f1 f2).trace)
    ∧ (cfg.checkpoints = none →
      resumeBest cfg = ⟨0, 0⟩ ∧ trainEpochIds cfg = List.range' 1 cfg.epochs) := by
  constructor
  · intro h
    have hr : resumeBest cfg = mi := by rw [resumeBest, h]
    refine ⟨hr, by rw [trainEpochIds, hr], ?_⟩
    exact mem_foldl_trainStep_trace cfg bs f1 f2 _ _ _
      (by simp [initTrace, h])
  · intro h
    have hr : resumeBest cfg = ⟨0, 0⟩ := by rw [resumeBest, h]
    exact ⟨hr, by simp [trainEpochIds, hr]⟩

theorem train_trace_filter_param (cfg : GlobalConfig) (bs : List Batch)
    (f1 f2 : ℕ → ℚ) :
    (Trainer.train cfg bs f1 f2).trace.filter Event.isParamOp
      = (List.replicate ((trainEpochIds cfg).length * bs.length)
          [Event.backward, Event.optStep, Event.clearGrad, Event.lrStep]).flatten := by
  unfold Trainer.train
  rw [foldl_trainStep_trace_filter_param]
  rcases h : cfg.checkpoints with _ | r <;> simp [initTrace, h, Event.isParamOp]

theorem countP_optStep_flatten_replicate (n : ℕ) :
    ((List.replicate n
        [Event.backward, Event.optStep, Event.clearGrad, Event.lrStep]).flatten.countP
      (fun ev => ev == Event.optStep)) = n := by
  induction n with
  | zero => simp
  | succ n ih =>
    rw [List.replicate_succ, List.flatten_cons, List.countP_append, ih]
    have hb : List.countP (fun ev => ev == Event.optStep)
        [Event.backward, Event.optStep, Event.clearGrad, Event.lrStep] = 1 := by decide
    omega

/-- C5: each training batch performs exactly one parameter update, in the
order backward pass, `optimizer.step()`, `optimizer.clear_grad()`,
`lr_sch.step()`, and no parameter update happens outside this per-batch
sequence: the parameter-update events of the whole trace are exactly one
such quadruple per batch per epoch, in order. -/
theorem one_update_per_batch_in_order (cfg : GlobalConfig) (bs : List Batch)
    (f1 f2 : ℕ → ℚ) :
    (Trainer.train cfg bs f1 f2).trace.filter Event.isParamOp
      = (List.replicate ((trainEpochIds cfg).length * bs.length)
          [Event.backward, Event.optStep, Event.clearGrad, Event.lrStep]).flatten :=
  train_trace_filter_param cfg bs f1 f2

/-- C7: `Trainer.train` terminates: the epoch loop runs exactly
`Global.epochs - resume_epoch` iterations, and each of them iterates the
dataloader exactly `bs.length` times (witnessed by the count of
`optimizer.step()` events). -/
theorem train_terminates_finite_epochs (cfg : GlobalConfig) (bs : List Batch)
    (f1 f2 : ℕ → ℚ) :
    (trainEpochIds cfg).length = cfg.epochs - (resumeBest cfg).epoch
    ∧ (Trainer.train cfg bs f1 f2).trace.countP (fun ev => ev == Event.optStep)
        = (cfg.epochs - (resumeBest cfg).epoch) * bs.length := by
  have hlen : (trainEpochIds cfg).length = cfg.epochs - (resumeBest cfg).epoch := by
    simp [trainEpochIds]
  refine ⟨hlen, ?_⟩
  have h1 : (Trainer.train cfg bs f1 f2).trace.countP (fun ev => ev == Event.optStep)
      = ((Trainer.train cfg bs f1 f2).trace.filter Event.isParamOp).countP
          (fun ev => ev == Event.optStep) := by
    rw [List.countP_filter]
    apply List.countP_congr
    intro a _
    cases a <;> rfl
  rw [h1, train_trace_filter_param, countP_optStep_flatten_replicate, hlen]

/-! ### Witnesses: the claim theorems applied at concrete inputs -/

/-- Witness for C2 at a configuration resuming from epoch 3 of 5. -/
theorem train_resumes_from_checkpoint_witness :
    resumeBest cfgW2 = ⟨1/2, 3⟩
    ∧ trainEpochIds cfgW2 = List.range' 4 2
    ∧ Event.initModel ∈ (Trainer.train cfgW2 [] evalZero evalZero).trace := by
  have h := (train_resumes_from_checkpoint cfgW2 [] evalZero evalZero ⟨1/2, 3⟩).1 rfl
  exact ⟨h.1, h.2.1, h.2.2⟩

/-- Witness for C4 at epoch 4 with `save_interval = 2`. -/
theorem periodic_checkpoint_save_interval_witness :
    Event.saveModel ("ppcls_epoch_" ++ toString 4) (epochAcc cfgW4 evalZero 4) 4
      ∈ (runEpoch cfgW4 [] evalZero evalZero ⟨0, 0⟩ [] 0 4).events :=
  (periodic_checkpoint_iff_save_interval_dvd cfgW4 [] evalZero evalZero ⟨0, 0⟩ [] 0 4
      (by decide) (epochAcc cfgW4 evalZero 4) 4).mpr
    ⟨by decide, rfl, rfl⟩

/-- Witness for C6 at a one-batch epoch: the logged `loss` value 3 is the
weighted average `(3 * 2) / 2`. -/
theorem logged_values_weighted_averages_witness :
    (3 : ℚ) = keyWSum cfgW6 "loss" (bsW6.take (0 + 1))
      / (keyWCount cfgW6 "loss" (bsW6.take (0 + 1)) : ℚ) :=
  (logged_values_are_weighted_averages cfgW6 bsW6 evalZero evalZero ⟨0, 0⟩ [] 0 1).1
    0 [("loss", 3)] "loss" 3
    (by norm_num [runBatches, stepInfo, updDict, updOne, setMeter, getMeter,
      avgsOf, AverageMeter.update, AverageMeter.avg, bsW6, cfgW6])
    (by norm_num)

/-- Witness for C9 at a two-row query split into two blocks. -/
theorem split_concat_chosen_labels_witness :
    ((splitSections 2 (QW.length / 2) QW).map
        (fun block => block.map (chosenLabel AW LW))).flatten
      = QW.map (chosenLabel AW LW)
    ∧ ∀ (labs : List ℤ),
      List.zipWith (fun a b => if a = b then (1 : ℝ) else 0)
          (((splitSections 2 (QW.length / 2) QW).map
            (fun block => block.map (chosenLabel AW LW))).flatten) labs
        = List.zipWith (fun a b => if a = b then (1 : ℝ) else 0)
            (QW.map (chosenLabel AW LW)) labs :=
  split_concat_chosen_labels_eq AW LW QW 2 (by decide) (by decide)

/-- Witness for C10 at the vector `[3, 4]`. -/
theorem normalize_unit_norm_witness :
    feasNorm vW ≠ 0 ∧ feasNorm (normalizeRow vW) = 1 :=
  normalize_unit_norm_of_nonzero vW ⟨3, by simp [vW], by norm_num⟩

/-- Witness for C1 at a two-item gallery and one-item query. -/
theorem trainer_eval_recall_at1_witness :
    Trainer.eval gbW qbW 1
      = specRecallAt1 (rawFeas gbW) (buildLabs gbW) (rawFeas qbW) (buildLabs qbW) :=
  trainer_eval_returns_recall_at1 gbW qbW 1
    (by simp [rawFeas, gbW]) (by simp [rawFeas, qbW])
    (by simp [qbW]) (by decide) (by simp [rawFeas, qbW])

end TrainerLogo
